import Mathlib

/-!
Shallow embedding of `src/balance_wheel.py` (the "balance wheel" Streamlit
app).  The app keeps a History: a Python dict mapping timestamp strings to
Snapshot dicts, loaded from and rewritten to a single JSON backing file.
Python dicts preserve insertion order; assignment to an existing key updates
the value in place, assignment to a fresh key appends at the end, and
`del d[k]` removes the (unique) entry for `k`.  We model dicts as association
lists `List (String × Json)` with exactly those semantics, JSON documents as
an inductive `Json` value, and the backing file as a `FileState` that is
absent, present-but-unparseable, or present with a parsed JSON document.
`json.dump` followed by `json.load` is the identity on JSON values (keys kept
in file order), so the file stores the document itself.
-/

/-- JSON values as produced by Python's `json.load` (numbers restricted to
the integers, which is all the app ever writes: ratings are ints). -/
inductive Json where
  | null : Json
  | bool : Bool → Json
  | num : Int → Json
  | str : String → Json
  | arr : List Json → Json
  | obj : List (String × Json) → Json
deriving Repr

/-- State of the backing file `balance_wheel_history.json`: missing, present
but not valid JSON, or present with parsed document `j`. -/
inductive FileState where
  | absent : FileState
  | invalid : FileState
  | valid : Json → FileState
deriving Repr

/-- Lines 90-96: `history = {}`; if the file exists, `history = json.load(f)`,
and a `json.JSONDecodeError` is caught and leaves `history = {}`. -/
def loadHistory : FileState → Json
  | FileState.absent => Json.obj []
  | FileState.invalid => Json.obj []
  | FileState.valid j => j

/-- Python dict lookup `d[k]` (first — and in a real dict only — binding). -/
def lookupKey : List (String × Json) → String → Option Json
  | [], _ => none
  | (k, v) :: rest, key => if k = key then some v else lookupKey rest key

/-- Python dict assignment `d[k] = v`: update in place if `k` is present,
else append a new binding at the end. -/
def insertKey : List (String × Json) → String → Json → List (String × Json)
  | [], key, v => [(key, v)]
  | (k, w) :: rest, key, v =>
    if k = key then (key, v) :: rest else (k, w) :: insertKey rest key v

/-- Python `del d[k]`: remove the first (in a real dict, only) binding of `k`.
On a dict this is only reached when `k` is present (else `KeyError`). -/
def delKey : List (String × Json) → String → List (String × Json)
  | [], _ => []
  | (k, v) :: rest, key => if k = key then rest else (k, v) :: delKey rest key

/-- `list(d.keys())` in insertion order. -/
def keysOf (h : List (String × Json)) : List String := h.map Prod.fst

/-- The field list of a JSON object (the app only treats objects as dicts). -/
def objFields : Json → List (String × Json)
  | Json.obj l => l
  | _ => []

/-- Python `d.get(k, dflt)`. -/
def dget (l : List (String × Json)) (k : String) (dflt : Json) : Json :=
  (lookupKey l k).getD dflt

/-- Line 77: the six categories, in declared order. -/
def categories : List String :=
  ["Physical", "Emotional", "Professional", "Creativity", "Financial", "Adventures"]

/-- Lines 80-87: fixed base color per category. -/
def base_colors : String → String
  | "Physical" => "blue"
  | "Emotional" => "yellow"
  | "Professional" => "purple"
  | "Creativity" => "teal"
  | "Financial" => "grey"
  | _ => "orange"

/-- Python `max(ratings)` (nonempty in the app: always six ratings). -/
def maxOf : List Int → Int
  | [] => 0
  | x :: xs => xs.foldl max x

/-- Python `min(ratings)`. -/
def minOf : List Int → Int
  | [] => 0
  | x :: xs => xs.foldl min x

/-- Lines 139-149: the colors loop.  For each category in declared order,
green if its rating equals the maximum, else red if it equals the minimum,
else its fixed base color.  (`ratings[i]` is always in range in the app;
`getD` supplies a default that is never consulted at length six.) -/
def colorsOf (ratings : List Int) : List String :=
  let mx := maxOf ratings
  let mn := minOf ratings
  categories.enum.map fun (i, cat) =>
    if ratings.getD i 0 = mx then "green"
    else if ratings.getD i 0 = mn then "red"
    else base_colors cat

/-- Line 116: `latest_data = history[list(history.keys())[-1]] if history
else {}`. -/
def latest_data (h : List (String × Json)) : Json :=
  match (keysOf h).getLast? with
  | none => Json.obj []
  | some k => (lookupKey h k).getD (Json.obj [])

/-- Line 120: `latest_data.get(cat, {}).get("rating", 5)`. -/
def default_rating (h : List (String × Json)) (cat : String) : Json :=
  dget (objFields (dget (objFields (latest_data h)) cat (Json.obj []))) "rating" (Json.num 5)

/-- Line 121: `latest_data.get(cat, {}).get("note", "")`. -/
def default_note (h : List (String × Json)) (cat : String) : Json :=
  dget (objFields (dget (objFields (latest_data h)) cat (Json.obj []))) "note" (Json.str "")

/-- Lines 172-175: the snapshot saved for parallel inputs `ratings` (list,
indexed positionally) and `notes` (dict keyed by category). -/
def mkSnapshot (ratings : List Int) (notes : String → String) : Json :=
  Json.obj (categories.enum.map fun (i, cat) =>
    (cat, Json.obj [("rating", Json.num (ratings.getD i 0)),
                    ("note", Json.str (notes cat))]))

/-- One press of the Save button (lines 170-177), with the formatted
wall-clock timestamp abstracted as `ts`: insert the snapshot into the
in-memory history and rewrite the whole backing file with the result. -/
structure SaveInput where
  ts : String
  ratings : List Int
  notes : String → String

def saveOp (st : List (String × Json) × FileState) (s : SaveInput) :
    List (String × Json) × FileState :=
  let h := insertKey st.1 s.ts (mkSnapshot s.ratings s.notes)
  (h, FileState.valid (Json.obj h))

/-- A run of Save presses starting from an empty history and no backing
file. -/
def runSaves (saves : List SaveInput) : List (String × Json) × FileState :=
  saves.foldl saveOp ([], FileState.absent)

/-- One press of a Delete button (lines 232-235): `del history[ts]`, then
rewrite the whole backing file with the remaining entries. -/
def deleteOp (st : List (String × Json) × FileState) (ts : String) :
    List (String × Json) × FileState :=
  let h := delKey st.1 ts
  (h, FileState.valid (Json.obj h))

/-- The import block (lines 206-215): `payload` is the result of
`json.load(uploaded)` (`none` on a parse failure).  On success the file is
rewritten with the payload verbatim — no schema validation — and the refresh
flag triggers a rerun that reloads the in-memory history from the file; on
failure an error is reported and neither the file nor the in-memory history
changes.  Result: (file, in-memory history at next render, error reported). -/
def importRun (payload : Option Json) (fs : FileState) (h : Json) :
    FileState × Json × Bool :=
  match payload with
  | none => (fs, h, true)
  | some j => (FileState.valid j, loadHistory (FileState.valid j), false)

/-- The export button (lines 197-203) offers `json.dumps(history, indent=4)`
for download.  A dumped document parses back to the value it was dumped from,
so the payload is modelled by its parse result: `some` of the history. -/
def exportPayload (h : List (String × Json)) : Option Json :=
  some (Json.obj h)

/-! ## Association-list (Python dict) lemmas -/

theorem keysOf_nil : keysOf [] = [] := rfl

theorem keysOf_cons (x : String × Json) (t : List (String × Json)) :
    keysOf (x :: t) = x.1 :: keysOf t := rfl

theorem keysOf_append (l₁ l₂ : List (String × Json)) :
    keysOf (l₁ ++ l₂) = keysOf l₁ ++ keysOf l₂ := by
  simp [keysOf]

theorem lookupKey_eq_none (h : List (String × Json)) (k : String)
    (hk : k ∉ keysOf h) : lookupKey h k = none := by
  induction h with
  | nil => rfl
  | cons x t ih =>
    obtain ⟨a, w⟩ := x
    simp only [keysOf_cons, List.mem_cons, not_or] at hk
    simp [lookupKey, Ne.symm hk.1, ih hk.2]

theorem insertKey_of_not_mem (h : List (String × Json)) (k : String) (v : Json)
    (hk : k ∉ keysOf h) : insertKey h k v = h ++ [(k, v)] := by
  induction h with
  | nil => rfl
  | cons x t ih =>
    obtain ⟨a, w⟩ := x
    simp only [keysOf_cons, List.mem_cons, not_or] at hk
    simp [insertKey, Ne.symm hk.1, ih hk.2]

theorem insertKey_insertKey (h : List (String × Json)) (k : String) (v₁ v₂ : Json) :
    insertKey (insertKey h k v₁) k v₂ = insertKey h k v₂ := by
  induction h with
  | nil => simp [insertKey]
  | cons x t ih =>
    obtain ⟨a, w⟩ := x
    by_cases hk : a = k <;> simp [insertKey, hk, ih]

theorem keysOf_insertKey (h : List (String × Json)) (k : String) (v : Json) :
    keysOf (insertKey h k v) =
      if k ∈ keysOf h then keysOf h else keysOf h ++ [k] := by
  induction h with
  | nil => simp [insertKey, keysOf]
  | cons x t ih =>
    obtain ⟨a, w⟩ := x
    by_cases hk : a = k
    · subst hk
      simp [insertKey, keysOf_cons]
    · by_cases hmem : k ∈ keysOf t <;>
        simp [insertKey, hk, Ne.symm hk, keysOf_cons, hmem, ih]

theorem keysOf_delKey (h : List (String × Json)) (k : String) :
    keysOf (delKey h k) = (keysOf h).erase k := by
  induction h with
  | nil => rfl
  | cons x t ih =>
    obtain ⟨a, w⟩ := x
    by_cases hk : a = k
    · subst hk
      simp [delKey, keysOf_cons, List.erase_cons]
    · simp [delKey, hk, keysOf_cons, List.erase_cons, ih]

theorem lookupKey_delKey_self (h : List (String × Json)) (k : String)
    (hnd : (keysOf h).Nodup) : lookupKey (delKey h k) k = none := by
  induction h with
  | nil => rfl
  | cons x t ih =>
    obtain ⟨a, w⟩ := x
    rw [keysOf_cons, List.nodup_cons] at hnd
    by_cases hk : a = k
    · subst hk
      simpa [delKey] using lookupKey_eq_none t a hnd.1
    · simp [delKey, hk, lookupKey, ih hnd.2]

theorem lookupKey_delKey_ne (h : List (String × Json)) (k k' : String)
    (hne : k' ≠ k) : lookupKey (delKey h k) k' = lookupKey h k' := by
  induction h with
  | nil => rfl
  | cons x t ih =>
    obtain ⟨a, w⟩ := x
    by_cases hk : a = k
    · subst hk
      simp [delKey, lookupKey, Ne.symm hne]
    · by_cases hk' : a = k' <;> simp [delKey, hk, lookupKey, hk', hne, ih]

theorem lookupKey_getLast (h : List (String × Json)) (p : String × Json)
    (hnd : (keysOf h).Nodup) (hp : h.getLast? = some p) :
    lookupKey h p.1 = some p.2 := by
  induction h with
  | nil => simp at hp
  | cons x t ih =>
    cases t with
    | nil =>
      obtain rfl : p = x := by simpa using hp.symm
      simp [lookupKey]
    | cons y t' =>
      rw [List.getLast?_cons_cons] at hp
      rw [keysOf_cons, List.nodup_cons] at hnd
      have hmemo : p ∈ (y :: t').getLast? := by rw [hp]; rfl
      have hpmem : p ∈ y :: t' := by
        obtain ⟨hne, hpe⟩ := List.mem_getLast?_eq_getLast hmemo
        rw [hpe]
        exact List.getLast_mem hne
      have hxp : x.1 ≠ p.1 := by
        intro hcontra
        exact hnd.1 (hcontra ▸ List.mem_map_of_mem Prod.fst hpmem)
      simp only [lookupKey, if_neg hxp]
      exact ih hnd.2 hp

theorem keysOf_getLast? (h : List (String × Json)) :
    (keysOf h).getLast? = h.getLast?.map Prod.fst := by
  induction h with
  | nil => rfl
  | cons x t ih =>
    cases t with
    | nil => rfl
    | cons y t' =>
      show (x.1 :: y.1 :: keysOf t').getLast? = ((x :: y :: t').getLast?).map Prod.fst
      rw [List.getLast?_cons_cons, List.getLast?_cons_cons]
      simpa [keysOf] using ih

theorem foldl_saveOp_fst (saves : List SaveInput) (acc : List (String × Json))
    (fs : FileState) (hnd : (saves.map SaveInput.ts).Nodup)
    (hdisj : ∀ s ∈ saves, s.ts ∉ keysOf acc) :
    (saves.foldl saveOp (acc, fs)).1
      = acc ++ saves.map (fun s => (s.ts, mkSnapshot s.ratings s.notes)) := by
  induction saves generalizing acc fs with
  | nil => simp
  | cons s rest ih =>
    rw [List.map_cons, List.nodup_cons] at hnd
    have hfresh : s.ts ∉ keysOf acc := hdisj s (List.mem_cons_self s rest)
    have hstep : saveOp (acc, fs) s
        = (acc ++ [(s.ts, mkSnapshot s.ratings s.notes)],
           FileState.valid (Json.obj (acc ++ [(s.ts, mkSnapshot s.ratings s.notes)]))) := by
      simp [saveOp, insertKey_of_not_mem _ _ _ hfresh]
    have hdisj' : ∀ r ∈ rest,
        r.ts ∉ keysOf (acc ++ [(s.ts, mkSnapshot s.ratings s.notes)]) := by
      intro r hr
      rw [keysOf_append]
      simp only [List.mem_append, not_or]
      refine ⟨hdisj r (List.mem_cons_of_mem s hr), ?_⟩
      intro hmem
      have hts : r.ts = s.ts := by simpa [keysOf] using hmem
      exact hnd.1 (hts ▸ List.mem_map_of_mem SaveInput.ts hr)
    rw [List.foldl_cons, hstep, ih _ _ hnd.2 hdisj']
    simp

theorem foldl_saveOp_snd (saves : List SaveInput)
    (st : List (String × Json) × FileState) (hne : saves ≠ []) :
    (saves.foldl saveOp st).2
      = FileState.valid (Json.obj (saves.foldl saveOp st).1) := by
  induction saves generalizing st with
  | nil => exact absurd rfl hne
  | cons s rest ih =>
    cases rest with
    | nil => rfl
    | cons r rest' =>
      simp only [List.foldl_cons]
      exact ih (saveOp st s) (by simp)

/-! ## Claims -/

/-- C1: for every sequence of Save operations with pairwise-distinct
timestamps starting from an empty History (and no backing file), a subsequent
Load — restart, then reading the backing file — returns a History whose keys
and per-category rating/note Snapshot contents are exactly those inserted by
the saves, in insertion order. -/
theorem save_load_roundtrip (saves : List SaveInput)
    (hnd : (saves.map SaveInput.ts).Nodup) :
    loadHistory (runSaves saves).2
      = Json.obj (saves.map fun s => (s.ts, mkSnapshot s.ratings s.notes)) := by
  cases saves with
  | nil => rfl
  | cons s rest =>
    rw [runSaves, foldl_saveOp_snd _ _ (by simp),
        foldl_saveOp_fst _ _ _ hnd (by simp [keysOf])]
    simp [loadHistory]

theorem save_load_roundtrip_witness :
    loadHistory (runSaves
      [SaveInput.mk "2024-01-01 08:00:00" [1, 2, 3, 4, 5, 6] (fun _ => "a"),
       SaveInput.mk "2024-01-02 08:00:00" [0, 0, 0, 0, 0, 0] (fun _ => "")]).2
      = Json.obj
          [("2024-01-01 08:00:00", mkSnapshot [1, 2, 3, 4, 5, 6] (fun _ => "a")),
           ("2024-01-02 08:00:00", mkSnapshot [0, 0, 0, 0, 0, 0] (fun _ => ""))] :=
  save_load_roundtrip _ (by decide)

/-- C2: serializing any History with Export and feeding that exact payload to
Import reproduces the original History exactly, in the backing file and in
the in-memory mapping seen at the next render, with no error reported. -/
theorem export_import_roundtrip (h : List (String × Json)) (fs : FileState)
    (mem : Json) :
    importRun (exportPayload h) fs mem
      = (FileState.valid (Json.obj h), Json.obj h, false) := rfl

/-- C3: Import reports an error iff the payload fails to parse as JSON; on
failure the backing file and the in-memory History are left unmodified, and
on success any well-formed JSON document replaces both, with no validation of
the Snapshot schema. -/
theorem import_error_semantics (payload : Option Json) (fs : FileState)
    (h : Json) :
    ((importRun payload fs h).2.2 = true ↔ payload = none)
    ∧ (payload = none → importRun payload fs h = (fs, h, true))
    ∧ (∀ j, payload = some j →
        importRun payload fs h = (FileState.valid j, j, false)) := by
  cases payload <;> simp [importRun, loadHistory]

theorem import_error_semantics_witness :
    importRun (some (Json.arr [Json.num 3, Json.str "x"])) FileState.absent
        (Json.obj [])
      = (FileState.valid (Json.arr [Json.num 3, Json.str "x"]),
         Json.arr [Json.num 3, Json.str "x"], false) :=
  (import_error_semantics (some (Json.arr [Json.num 3, Json.str "x"]))
      FileState.absent (Json.obj [])).2.2 _ rfl

/-- C4: Load never raises to its caller: if the backing file is absent or its
content fails to parse as JSON, Load returns an empty History, and otherwise
it returns the parsed JSON document. -/
theorem load_never_raises :
    loadHistory FileState.absent = Json.obj []
    ∧ loadHistory FileState.invalid = Json.obj []
    ∧ ∀ j, loadHistory (FileState.valid j) = j :=
  ⟨rfl, rfl, fun _ => rfl⟩

/-- C5: for every non-empty History (with the distinct keys a dict
guarantees), LatestSnapshot returns the Snapshot associated with the last key
in insertion order — not any re-sorted order — and that snapshot is the one
whose ratings and notes seed the current-input defaults. -/
theorem latest_snapshot_insertion_order (h : List (String × Json))
    (p : String × Json) (hnd : (keysOf h).Nodup) (hp : h.getLast? = some p) :
    latest_data h = p.2
    ∧ (∀ cat, default_rating h cat
        = dget (objFields (dget (objFields p.2) cat (Json.obj [])))
            "rating" (Json.num 5))
    ∧ (∀ cat, default_note h cat
        = dget (objFields (dget (objFields p.2) cat (Json.obj [])))
            "note" (Json.str "")) := by
  have hkey : (keysOf h).getLast? = some p.1 := by
    rw [keysOf_getLast?, hp]
    rfl
  have h1 : latest_data h = p.2 := by
    rw [latest_data, hkey]
    show (lookupKey h p.1).getD (Json.obj []) = p.2
    rw [lookupKey_getLast h p hnd hp]
    rfl
  exact ⟨h1, fun cat => by rw [default_rating, h1], fun cat => by rw [default_note, h1]⟩

theorem latest_snapshot_witness :
    latest_data [("2024-05-02 10:00:00", Json.num 1),
                 ("2024-01-01 00:00:00", Json.num 2)] = Json.num 2 :=
  (latest_snapshot_insertion_order
      [("2024-05-02 10:00:00", Json.num 1), ("2024-01-01 00:00:00", Json.num 2)]
      ("2024-01-01 00:00:00", Json.num 2) (by decide) rfl).1

/-- C6: on the empty History, LatestSnapshot yields the default record
rating=5 and note="" for each of the six categories. -/
theorem latest_defaults_on_empty :
    latest_data [] = Json.obj []
    ∧ default_rating [] "Physical" = Json.num 5
    ∧ default_rating [] "Emotional" = Json.num 5
    ∧ default_rating [] "Professional" = Json.num 5
    ∧ default_rating [] "Creativity" = Json.num 5
    ∧ default_rating [] "Financial" = Json.num 5
    ∧ default_rating [] "Adventures" = Json.num 5
    ∧ default_note [] "Physical" = Json.str ""
    ∧ default_note [] "Emotional" = Json.str ""
    ∧ default_note [] "Professional" = Json.str ""
    ∧ default_note [] "Creativity" = Json.str ""
    ∧ default_note [] "Financial" = Json.str ""
    ∧ default_note [] "Adventures" = Json.str "" :=
  ⟨rfl, rfl, rfl, rfl, rfl, rfl, rfl, rfl, rfl, rfl, rfl, rfl, rfl⟩

/-- C7: Save builds a Snapshot mapping each of the six categories (here the
`i`-th) to its rating and note from the parallel inputs, inserts it into
History under the formatted timestamp and rewrites the whole backing file;
and a second Save under the same timestamp string silently overwrites the
first, gaining no new key. -/
theorem save_overwrite_semantics (h : List (String × Json)) (fs : FileState)
    (ts : String) (r₁ r₂ : List Int) (n₁ n₂ : String → String)
    (i : Nat) (hi : i < 6) :
    lookupKey (objFields (mkSnapshot r₁ n₁)) (categories.getD i "")
      = some (Json.obj [("rating", Json.num (r₁.getD i 0)),
                        ("note", Json.str (n₁ (categories.getD i "")))])
    ∧ saveOp (h, fs) (SaveInput.mk ts r₁ n₁)
      = (insertKey h ts (mkSnapshot r₁ n₁),
         FileState.valid (Json.obj (insertKey h ts (mkSnapshot r₁ n₁))))
    ∧ (saveOp (saveOp (h, fs) (SaveInput.mk ts r₁ n₁)) (SaveInput.mk ts r₂ n₂)).1
      = insertKey h ts (mkSnapshot r₂ n₂)
    ∧ keysOf (saveOp (saveOp (h, fs) (SaveInput.mk ts r₁ n₁))
        (SaveInput.mk ts r₂ n₂)).1
      = keysOf (saveOp (h, fs) (SaveInput.mk ts r₁ n₁)).1 := by
  refine ⟨?_, rfl, ?_, ?_⟩
  · interval_cases i <;> rfl
  · exact insertKey_insertKey h ts (mkSnapshot r₁ n₁) (mkSnapshot r₂ n₂)
  · show keysOf (insertKey (insertKey h ts (mkSnapshot r₁ n₁)) ts (mkSnapshot r₂ n₂))
      = keysOf (insertKey h ts (mkSnapshot r₁ n₁))
    rw [insertKey_insertKey, keysOf_insertKey, keysOf_insertKey]

theorem save_overwrite_witness :
    (saveOp (saveOp ([], FileState.absent)
        (SaveInput.mk "2024-01-01 00:00:00" [1, 2, 3, 4, 5, 6] (fun _ => "a")))
        (SaveInput.mk "2024-01-01 00:00:00" [6, 5, 4, 3, 2, 1] (fun _ => "b"))).1
      = insertKey [] "2024-01-01 00:00:00"
          (mkSnapshot [6, 5, 4, 3, 2, 1] (fun _ => "b")) :=
  (save_overwrite_semantics [] FileState.absent "2024-01-01 00:00:00"
      [1, 2, 3, 4, 5, 6] [6, 5, 4, 3, 2, 1] (fun _ => "a") (fun _ => "b")
      0 (by decide)).2.2.1

/-- C8: for every History (with the distinct keys a dict guarantees)
containing key `ts`, Delete removes exactly that one key, leaves every other
key and its Snapshot content unchanged, and rewrites the full backing file
with the remaining entries. -/
theorem delete_frame_semantics (h : List (String × Json)) (ts : String)
    (fs : FileState) (hnd : (keysOf h).Nodup) (_hts : ts ∈ keysOf h) :
    keysOf (deleteOp (h, fs) ts).1 = (keysOf h).erase ts
    ∧ lookupKey (deleteOp (h, fs) ts).1 ts = none
    ∧ (∀ k, k ≠ ts → lookupKey (deleteOp (h, fs) ts).1 k = lookupKey h k)
    ∧ (deleteOp (h, fs) ts).2 = FileState.valid (Json.obj (delKey h ts)) :=
  ⟨keysOf_delKey h ts, lookupKey_delKey_self h ts hnd,
   fun k hk => lookupKey_delKey_ne h ts k hk, rfl⟩

theorem delete_frame_witness :
    keysOf (deleteOp ([("2024-01-01 00:00:00", Json.num 1),
                       ("2024-01-02 00:00:00", Json.num 2)], FileState.absent)
        "2024-01-01 00:00:00").1
      = (keysOf [("2024-01-01 00:00:00", Json.num 1),
                 ("2024-01-02 00:00:00", Json.num 2)]).erase "2024-01-01 00:00:00" :=
  (delete_frame_semantics
      [("2024-01-01 00:00:00", Json.num 1), ("2024-01-02 00:00:00", Json.num 2)]
      "2024-01-01 00:00:00" FileState.absent (by decide) (by decide)).1

/-! ## Color rule -/

theorem color_case (x mx mn : Int) (bc : String)
    (h₁ : bc ≠ "green") (h₂ : bc ≠ "red") :
    ((if x = mx then "green" else if x = mn then "red" else bc) = "green"
      ↔ x = mx)
    ∧ ((if x = mx then "green" else if x = mn then "red" else bc) = "red"
      ↔ (x = mn ∧ x ≠ mx))
    ∧ (x ≠ mx → x ≠ mn →
        (if x = mx then "green" else if x = mn then "red" else bc) = bc) := by
  have hgr : ("green" : String) ≠ "red" := by decide
  have hrg : ("red" : String) ≠ "green" := by decide
  split_ifs with ha hb <;> simp_all

/-- C9: under the color rule, for ratings [10,2,2,5,5,5] in declared category
order, the first category is highlight-high (green), the second is
highlight-low (red), the third is either its fixed base color or
highlight-low, and the fourth, fifth and sixth keep their fixed base
colors. -/
theorem color_rule_example :
    (colorsOf [10, 2, 2, 5, 5, 5]).getD 0 "" = "green"
    ∧ (colorsOf [10, 2, 2, 5, 5, 5]).getD 1 "" = "red"
    ∧ ((colorsOf [10, 2, 2, 5, 5, 5]).getD 2 "" = base_colors "Professional"
        ∨ (colorsOf [10, 2, 2, 5, 5, 5]).getD 2 "" = "red")
    ∧ (colorsOf [10, 2, 2, 5, 5, 5]).getD 3 "" = base_colors "Creativity"
    ∧ (colorsOf [10, 2, 2, 5, 5, 5]).getD 4 "" = base_colors "Financial"
    ∧ (colorsOf [10, 2, 2, 5, 5, 5]).getD 5 "" = base_colors "Adventures" :=
  ⟨rfl, rfl, Or.inr rfl, rfl, rfl, rfl⟩

/-- C10: for every list of six ratings, each category's color depends only on
its own rating and the overall maximum and minimum, with no cross-category
exclusion or tie-break: green exactly when the rating equals the maximum, red
exactly when it equals the minimum but not the maximum, the fixed base color
otherwise; and when all six ratings are equal every category is green. -/
theorem color_rule_pointwise (rs : List Int) (h6 : rs.length = 6) :
    (∀ i, i < 6 →
      (((colorsOf rs).getD i "" = "green") ↔ rs.getD i 0 = maxOf rs)
      ∧ (((colorsOf rs).getD i "" = "red")
          ↔ (rs.getD i 0 = minOf rs ∧ rs.getD i 0 ≠ maxOf rs))
      ∧ (rs.getD i 0 ≠ maxOf rs → rs.getD i 0 ≠ minOf rs →
          (colorsOf rs).getD i "" = base_colors (categories.getD i "")))
    ∧ (∀ v : Int, rs = List.replicate 6 v →
        colorsOf rs = List.replicate 6 "green") := by
  rcases rs with _ | ⟨a, _ | ⟨b, _ | ⟨c, _ | ⟨d, _ | ⟨e, _ | ⟨f, _ | ⟨g, t⟩⟩⟩⟩⟩⟩⟩ <;>
    try { exfalso; simp only [List.length_cons, List.length_nil] at h6; omega }
  constructor
  · intro i hi
    interval_cases i
    · exact color_case _ _ _ (base_colors (categories.getD 0 "")) (by decide) (by decide)
    · exact color_case _ _ _ (base_colors (categories.getD 1 "")) (by decide) (by decide)
    · exact color_case _ _ _ (base_colors (categories.getD 2 "")) (by decide) (by decide)
    · exact color_case _ _ _ (base_colors (categories.getD 3 "")) (by decide) (by decide)
    · exact color_case _ _ _ (base_colors (categories.getD 4 "")) (by decide) (by decide)
    · exact color_case _ _ _ (base_colors (categories.getD 5 "")) (by decide) (by decide)
  · intro v hv
    have hv6 : (List.replicate 6 v : List Int) = [v, v, v, v, v, v] := rfl
    rw [hv6] at hv
    rw [hv]
    have hmax : maxOf [v, v, v, v, v, v] = v := by simp [maxOf]
    have hcol : colorsOf [v, v, v, v, v, v] =
        [if v = maxOf [v, v, v, v, v, v] then "green"
           else if v = minOf [v, v, v, v, v, v] then "red" else "blue",
         if v = maxOf [v, v, v, v, v, v] then "green"
           else if v = minOf [v, v, v, v, v, v] then "red" else "yellow",
         if v = maxOf [v, v, v, v, v, v] then "green"
           else if v = minOf [v, v, v, v, v, v] then "red" else "purple",
         if v = maxOf [v, v, v, v, v, v] then "green"
           else if v = minOf [v, v, v, v, v, v] then "red" else "teal",
         if v = maxOf [v, v, v, v, v, v] then "green"
           else if v = minOf [v, v, v, v, v, v] then "red" else "grey",
         if v = maxOf [v, v, v, v, v, v] then "green"
           else if v = minOf [v, v, v, v, v, v] then "red" else "orange"] := rfl
    rw [hcol, hmax]
    simp [List.replicate]

theorem color_rule_pointwise_witness :
    ((colorsOf [10, 2, 2, 5, 5, 5]).getD 1 "" = "red")
      ↔ (List.getD [10, 2, 2, 5, 5, 5] 1 0 = minOf [10, 2, 2, 5, 5, 5]
          ∧ List.getD [10, 2, 2, 5, 5, 5] 1 0 ≠ maxOf [10, 2, 2, 5, 5, 5]) :=
  ((color_rule_pointwise [10, 2, 2, 5, 5, 5] rfl).1 1 (by decide)).2.1
